import Mathlib

/-!
# Verification of the omega-router-sdk command encoders

Shallow embedding of the route/command encoding core of the
`cryptoalgebra/omega-router-sdk` repository:

* `src/utils/routerCommands.ts` — command opcodes and the `RoutePlanner`
  append-only builder;
* `src/entities/OmegaTrade.ts` — the regular and boosted route encoders;
* `src/utils/encodePath.ts` — the byte-level boosted exact-output path
  encoder;
* `src/utils/swapTypeUtils.ts` — the boosted swap-type classifier;
* `src/entities/OmegaQuoter.ts` — single and batched quoting.

Modelling conventions:

* The repository's `src/constants` module (sentinel addresses
  `ADDRESS_THIS`, `ROUTER_ADDRESS`, the numeric sentinel
  `CONTRACT_BALANCE`, the boolean `SOURCE_ROUTER`) is not part of the
  provided sources; the spec describes the sentinels as opaque reserved
  constants shared with the on-chain interpreter.  They are modelled as
  distinguished constructors (`Addr.addressThis`, `Addr.routerAddr`,
  `Amt.contractBalance`) and, for `SOURCE_ROUTER`, a `Bool` constant whose
  value no claim depends on.
* `defaultAbiCoder.encode` (ethers) is an external injective serializer;
  an input blob is modelled as the typed pair of opcode and parameter
  list that was passed to it.
* `encodeRouteToPath` (integral-sdk) is an external serializer as well; a
  path parameter is modelled symbolically as the data it was built from.
* Amount strings (`quotient.toString()`, `'0'`) are modelled as `Amt.lit`
  of the underlying natural number; the literal JavaScript number `0`
  passed for some `amountMin` parameters is modelled as `Param.num 0`.
-/

/-- Addresses.  The two reserved sentinel addresses of the wire contract are
distinguished constructors; ordinary addresses are carried as strings, as in
the TypeScript source. -/
inductive Addr where
  | addressThis
  | routerAddr
  | named (s : String)
deriving DecidableEq, Repr

/-- Amount parameters: either the reserved "entire current balance" numeric
sentinel (`CONTRACT_BALANCE`) or a literal amount. -/
inductive Amt where
  | contractBalance
  | lit (n : Nat)
deriving DecidableEq, Repr

/-- Opcode tags from `routerCommands.ts` (`enum CommandType`). -/
inductive CommandType where
  | INTEGRAL_SWAP_EXACT_IN
  | INTEGRAL_SWAP_EXACT_OUT
  | PERMIT2_TRANSFER_FROM
  | PERMIT2_PERMIT_BATCH
  | SWEEP
  | TRANSFER
  | PAY_PORTION
  | ERC4626_WRAP
  | V2_SWAP_EXACT_IN
  | V2_SWAP_EXACT_OUT
  | PERMIT2_PERMIT
  | WRAP_ETH
  | UNWRAP_WETH
  | PERMIT2_TRANSFER_FROM_BATCH
  | BALANCE_CHECK_ERC20
  | ERC4626_UNWRAP
  | UNISWAP_V3_SWAP_EXACT_IN
  | UNISWAP_V3_SWAP_EXACT_OUT
  | INTEGRAL_POSITION_MANAGER_CALL
  | INTEGRAL_MINT
  | INTEGRAL_POSITION_MANAGER_PERMIT
  | EXECUTE_SUB_PLAN
deriving DecidableEq, Repr

/-- The numeric opcode of each command, exactly as in `routerCommands.ts`. -/
def CommandType.toByte : CommandType → Nat
  | .INTEGRAL_SWAP_EXACT_IN => 0x00
  | .INTEGRAL_SWAP_EXACT_OUT => 0x01
  | .PERMIT2_TRANSFER_FROM => 0x02
  | .PERMIT2_PERMIT_BATCH => 0x03
  | .SWEEP => 0x04
  | .TRANSFER => 0x05
  | .PAY_PORTION => 0x06
  | .ERC4626_WRAP => 0x07
  | .V2_SWAP_EXACT_IN => 0x08
  | .V2_SWAP_EXACT_OUT => 0x09
  | .PERMIT2_PERMIT => 0x0a
  | .WRAP_ETH => 0x0b
  | .UNWRAP_WETH => 0x0c
  | .PERMIT2_TRANSFER_FROM_BATCH => 0x0d
  | .BALANCE_CHECK_ERC20 => 0x0e
  | .ERC4626_UNWRAP => 0x0f
  | .UNISWAP_V3_SWAP_EXACT_IN => 0x10
  | .UNISWAP_V3_SWAP_EXACT_OUT => 0x11
  | .INTEGRAL_POSITION_MANAGER_CALL => 0x12
  | .INTEGRAL_MINT => 0x13
  | .INTEGRAL_POSITION_MANAGER_PERMIT => 0x14
  | .EXECUTE_SUB_PLAN => 0x21

/-- `const ALLOW_REVERT_FLAG = 0x80` from `routerCommands.ts`. -/
def ALLOW_REVERT_FLAG : Nat := 0x80

/-- `const REVERTIBLE_COMMANDS = new Set([CommandType.EXECUTE_SUB_PLAN])`. -/
def REVERTIBLE_COMMANDS : List CommandType := [CommandType.EXECUTE_SUB_PLAN]

/-- Step kinds of a boosted route (`BoostedRouteStepType` of the
integral-sdk, as consumed by `OmegaTrade.encodeStep`). -/
inductive StepType where
  | WRAP
  | UNWRAP
  | SWAP
deriving DecidableEq, Repr

instance : Inhabited StepType := ⟨StepType.SWAP⟩

/-- A currency as the encoders consume it: the native flag, its own address
and the address of its wrapped form (`currency.wrapped.address`; equal to
`address` for plain tokens). -/
structure CurrencyM where
  isNative : Bool
  address : Addr
  wrappedAddress : Addr
deriving DecidableEq, Repr

/-- The pool data the encoders read from a swap step. -/
structure PoolM where
  deployer : Addr
deriving DecidableEq, Repr

/-- One flattened step of a boosted route (`BoostedRouteStep`). -/
structure StepM where
  type : StepType
  tokenIn : CurrencyM
  tokenOut : CurrencyM
  pool : Option PoolM
deriving DecidableEq, Repr

/-- A path parameter, modelled symbolically as the data from which the
external `encodeRouteToPath` serializer builds it. -/
inductive PathParam where
  /-- Path of the single-pool sub-route `new Route([step.pool], step.tokenIn,
  step.tokenOut)` built inside `OmegaTrade.encodeStep`; the flag is the
  `exactOutput` direction handed to `encodeRouteToPath`. -/
  | subRoutePath (pool : Option PoolM) (tokenIn tokenOut : CurrencyM) (exactOutput : Bool)
  /-- Path of a whole regular route (`encodeRouteToPath(route, !exactInput)`
  in `OmegaTrade.encodeRegularRoute`). -/
  | regularRoutePath (input output : CurrencyM) (exactOutput : Bool)
deriving DecidableEq, Repr

/-- One parameter of a planner command. -/
inductive Param where
  | addr (a : Addr)
  | amt (a : Amt)
  | num (n : Nat)
  | boolean (b : Bool)
  | path (p : PathParam)
deriving DecidableEq, Repr

/-- An opcode together with its typed parameter list.  The ABI-encoded input
blob of `createCommand` is modelled as this pair (the external ABI coder is
injective on it). -/
structure Cmd where
  ty : CommandType
  params : List Param
deriving DecidableEq, Repr

/-- `createCommand`'s ABI-encoded input blob, modelled symbolically. -/
def abiEncode (ty : CommandType) (params : List Param) : Cmd := ⟨ty, params⟩

/-- Errors thrown by the encoders (`throw new Error(...)` in the source);
each constructor carries the data interpolated into the thrown message. -/
inductive EncodeError where
  /-- `command type: ... cannot be allowed to revert` (RoutePlanner.addCommand). -/
  | invalidRevertFlag (ty : CommandType)
  /-- `ExactOutput boosted routes support exactly 1 SWAP, got ${swapCount}` -/
  | wrongSwapCount (got : Nat)
  /-- `ExactOutput boosted route requires stepAmountsOut array with ${steps.length} elements.` -/
  | stepAmountsOutMissing (expected : Nat)
  /-- `this.trade.swaps[0]` is undefined (TypeError on destructuring). -/
  | emptySwaps
deriving DecidableEq, Repr

/-- `RoutePlanner`: the accumulating opcode byte string (as a byte list) and
the parallel list of ABI-encoded input blobs. -/
structure RoutePlanner where
  commands : List Nat
  inputs : List Cmd
deriving DecidableEq, Repr

/-- The fresh planner (`constructor() { this.commands = '0x'; this.inputs = [] }`). -/
def RoutePlanner.empty : RoutePlanner := ⟨[], []⟩

/-- `RoutePlanner.addCommand`.  Mirrors the mutation order of the source:
the input blob is pushed first; the revert-flag check happens afterwards, so
on failure the returned state already holds the extra input blob while no
opcode byte was appended. -/
def RoutePlanner.addCommand (p : RoutePlanner) (ty : CommandType) (params : List Param)
    (allowRevert : Bool) : RoutePlanner × Option EncodeError :=
  let inputs' := p.inputs ++ [abiEncode ty params]
  if allowRevert then
    if REVERTIBLE_COMMANDS.contains ty then
      ({ commands := p.commands ++ [ty.toByte ||| ALLOW_REVERT_FLAG], inputs := inputs' }, none)
    else
      ({ p with inputs := inputs' }, some (.invalidRevertFlag ty))
  else
    ({ commands := p.commands ++ [ty.toByte], inputs := inputs' }, none)

/-- `addCommand` with the default `allowRevert = false` (never fails); this
is the form every call in `OmegaTrade` uses. -/
def RoutePlanner.add (p : RoutePlanner) (ty : CommandType) (params : List Param) : RoutePlanner :=
  (p.addCommand ty params false).1

/-- Append a prebuilt command (same as `add` on its components). -/
def RoutePlanner.push (p : RoutePlanner) (c : Cmd) : RoutePlanner :=
  p.add c.ty c.params

/-- The planner obtained from `p` by appending the given commands in order:
one opcode byte and one input blob each. -/
def RoutePlanner.appendCmds (p : RoutePlanner) (cs : List Cmd) : RoutePlanner :=
  { commands := p.commands ++ cs.map (fun c => c.ty.toByte),
    inputs := p.inputs ++ cs }

theorem RoutePlanner.push_eq_appendCmds (p : RoutePlanner) (c : Cmd) :
    p.push c = p.appendCmds [c] := by
  cases c with
  | mk ty params =>
    simp [RoutePlanner.push, RoutePlanner.add, RoutePlanner.addCommand,
      RoutePlanner.appendCmds, abiEncode]

theorem RoutePlanner.appendCmds_nil (p : RoutePlanner) : p.appendCmds [] = p := by
  simp [RoutePlanner.appendCmds]

theorem RoutePlanner.appendCmds_append (p : RoutePlanner) (a b : List Cmd) :
    (p.appendCmds a).appendCmds b = p.appendCmds (a ++ b) := by
  simp [RoutePlanner.appendCmds]

theorem RoutePlanner.add_eq_appendCmds (p : RoutePlanner) (ty : CommandType)
    (params : List Param) : p.add ty params = p.appendCmds [⟨ty, params⟩] :=
  RoutePlanner.push_eq_appendCmds p ⟨ty, params⟩

/-! ## OmegaTrade — the route encoders (`src/entities/OmegaTrade.ts`) -/

/-- `SOURCE_ROUTER` from the repository's constants module (absent from the
provided sources); its concrete value is opaque to every claim — it is only
ever carried as an inert `payerIsUser` payload. -/
def SOURCE_ROUTER : Bool := false

/-- A boosted route as the encoders consume it (`BoostedRoute`): its input
and output currencies and the flattened step list. -/
structure BoostedRouteM where
  input : CurrencyM
  output : CurrencyM
  steps : List StepM
deriving DecidableEq, Repr

/-- A regular (non-boosted) route as the encoders consume it. -/
structure RegularRouteM where
  input : CurrencyM
  output : CurrencyM
deriving DecidableEq, Repr

/-- The route of one entry of `trade.swaps`. -/
inductive RouteM where
  | regular (r : RegularRouteM)
  | boosted (b : BoostedRouteM)
deriving DecidableEq, Repr

/-- The trade data the encoder reads.  The slippage-derived bounds
`minimumAmountOut(slippageTolerance)` / `maximumAmountIn(slippageTolerance)`
are external currency arithmetic; their quotients at the options' slippage
tolerance enter the model as the fields `minAmountOutQ` / `maxAmountInQ`. -/
structure TradeM where
  exactInput : Bool
  swaps : List RouteM
  inputAmountQ : Nat
  outputAmountQ : Nat
  minAmountOutQ : Nat
  maxAmountInQ : Nat
deriving DecidableEq, Repr

/-- The options fields the encoder reads (`SwapOptions`). -/
structure SwapOptionsM where
  recipient : Addr
  stepAmountsOut : Option (List Nat)
deriving DecidableEq, Repr

/-- `OmegaTrade.transferInputToken`. -/
def transferInputToken (p : RoutePlanner) (tokenAddress : Addr) (amount : Amt)
    (isNative : Bool) : RoutePlanner :=
  if isNative then
    p.add .WRAP_ETH [.addr .addressThis, .amt amount]
  else
    p.add .PERMIT2_TRANSFER_FROM [.addr tokenAddress, .addr .routerAddr, .amt amount]

/-- `OmegaTrade.unwrapOutputIfNative`. -/
def unwrapOutputIfNative (p : RoutePlanner) (recipient : Addr) (isNative : Bool) : RoutePlanner :=
  if isNative then p.add .UNWRAP_WETH [.addr recipient, .num 0] else p

/-- `OmegaTrade.sweepUnusedInput`. -/
def sweepUnusedInput (p : RoutePlanner) (tokenAddress recipient : Addr)
    (isNative : Bool) : RoutePlanner :=
  if isNative then
    p.add .UNWRAP_WETH [.addr recipient, .num 0]
  else
    p.add .SWEEP [.addr tokenAddress, .addr recipient, .num 0]

/-- The single command `OmegaTrade.encodeStep` appends, as a value. -/
def encodeStepCmd (step : StepM) (amountIn amountOut minAmountOut : Amt)
    (recipient : Addr) (exactOutput : Bool) : Cmd :=
  match step.type with
  | .WRAP =>
      ⟨.ERC4626_WRAP, [.addr step.tokenOut.address, .addr step.tokenIn.address,
        .addr recipient, .amt amountIn, .amt minAmountOut]⟩
  | .UNWRAP =>
      ⟨.ERC4626_UNWRAP, [.addr step.tokenIn.address, .addr recipient,
        .amt amountIn, .amt minAmountOut]⟩
  | .SWAP =>
      if exactOutput then
        ⟨.INTEGRAL_SWAP_EXACT_OUT, [.addr recipient, .amt amountOut, .amt amountIn,
          .path (.subRoutePath step.pool step.tokenIn step.tokenOut exactOutput),
          .boolean SOURCE_ROUTER]⟩
      else
        ⟨.INTEGRAL_SWAP_EXACT_IN, [.addr recipient, .amt amountIn, .amt minAmountOut,
          .path (.subRoutePath step.pool step.tokenIn step.tokenOut exactOutput),
          .boolean SOURCE_ROUTER]⟩

/-- `OmegaTrade.encodeStep`: appends exactly one command for the step. -/
def encodeStep (p : RoutePlanner) (step : StepM) (amountIn amountOut minAmountOut : Amt)
    (recipient : Addr) (exactOutput : Bool) : RoutePlanner :=
  p.push (encodeStepCmd step amountIn amountOut minAmountOut recipient exactOutput)

/-- The step loop of `OmegaTrade.encodeBoostedExactInput`: the boolean
`first` tracks `i === 0` of the source loop and `rest.isEmpty` is
`i === steps.length - 1`. -/
def encodeBoostedExactInputSteps (p : RoutePlanner) (steps : List StepM) (first : Bool)
    (amount minAmountOut : Amt) (recipient : Addr) (isOutputNative : Bool) : RoutePlanner :=
  match steps with
  | [] => p
  | step :: rest =>
      let isLast := rest.isEmpty
      let stepRecipient :=
        if isLast then (if isOutputNative then Addr.addressThis else recipient)
        else Addr.addressThis
      let stepAmount := if first then amount else Amt.contractBalance
      let stepMinAmountOut := if isLast then minAmountOut else Amt.lit 0
      encodeBoostedExactInputSteps
        (encodeStep p step stepAmount (Amt.lit 0) stepMinAmountOut stepRecipient false)
        rest false amount minAmountOut recipient isOutputNative

/-- `OmegaTrade.encodeBoostedExactInput`. -/
def encodeBoostedExactInput (t : TradeM) (opts : SwapOptionsM) (route : BoostedRouteM)
    (p : RoutePlanner) : RoutePlanner :=
  let amount := Amt.lit t.inputAmountQ
  let minAmountOut := Amt.lit t.minAmountOutQ
  let p1 := transferInputToken p route.input.wrappedAddress amount route.input.isNative
  let p2 := encodeBoostedExactInputSteps p1 route.steps true amount minAmountOut
    opts.recipient route.output.isNative
  unwrapOutputIfNative p2 opts.recipient route.output.isNative

/-- The step loop of `OmegaTrade.encodeBoostedExactOutput`, consuming the
steps and the caller-supplied `stepAmountsOut` in lockstep (their lengths
are validated equal before the loop runs). -/
def encodeBoostedExactOutputSteps (p : RoutePlanner) (steps : List StepM)
    (amountsOut : List Nat) (first : Bool) (maxAmountIn minAmountOut : Amt)
    (recipient : Addr) (isOutputNative : Bool) : RoutePlanner :=
  match steps, amountsOut with
  | step :: rest, aOut :: aRest =>
      let isLast := rest.isEmpty
      let stepRecipient :=
        if isLast then (if isOutputNative then Addr.addressThis else recipient)
        else Addr.addressThis
      let stepAmountIn := if first then maxAmountIn else Amt.contractBalance
      let stepMinOut := if isLast then minAmountOut else Amt.lit 0
      let isSwapStep := step.type == StepType.SWAP
      encodeBoostedExactOutputSteps
        (encodeStep p step stepAmountIn (Amt.lit aOut) stepMinOut stepRecipient isSwapStep)
        rest aRest false maxAmountIn minAmountOut recipient isOutputNative
  | _, _ => p

/-- The inverse vault operation `OmegaTrade.unwindIntermediateTokens` emits
for one forward step (`none` for SWAP steps, which emit nothing). -/
def unwindStepCmd (step : StepM) : Option Cmd :=
  match step.type with
  | .WRAP =>
      some ⟨.ERC4626_UNWRAP, [.addr step.tokenOut.address, .addr .addressThis,
        .amt .contractBalance, .num 0]⟩
  | .UNWRAP =>
      some ⟨.ERC4626_WRAP, [.addr step.tokenIn.address, .addr step.tokenOut.address,
        .addr .addressThis, .amt .contractBalance, .num 0]⟩
  | .SWAP => none

/-- `OmegaTrade.unwindIntermediateTokens`: walks the steps in reverse,
skipping the last one (loop `for (let i = steps.length - 2; i >= 0; i--)`). -/
def unwindIntermediateTokens (p : RoutePlanner) (steps : List StepM) : RoutePlanner :=
  (steps.dropLast.reverse).foldl
    (fun acc s => match unwindStepCmd s with
      | some c => acc.push c
      | none => acc) p

/-- The number of SWAP steps (`steps.filter(s => s.type === SWAP).length`). -/
def swapCount (steps : List StepM) : Nat :=
  (steps.filter (fun s => s.type == StepType.SWAP)).length

/-- `OmegaTrade.encodeBoostedExactOutput`.  On a validation failure the
thrown error is returned together with the planner state at the moment of
the throw (both validations precede every command append). -/
def encodeBoostedExactOutput (t : TradeM) (opts : SwapOptionsM) (route : BoostedRouteM)
    (p : RoutePlanner) : RoutePlanner × Option EncodeError :=
  let steps := route.steps
  if swapCount steps ≠ 1 then
    (p, some (.wrongSwapCount (swapCount steps)))
  else
    match opts.stepAmountsOut with
    | none => (p, some (.stepAmountsOutMissing steps.length))
    | some amounts =>
      if amounts.length ≠ steps.length then
        (p, some (.stepAmountsOutMissing steps.length))
      else
        let maxAmountIn := Amt.lit t.maxAmountInQ
        let minAmountOut := Amt.lit t.minAmountOutQ
        let p1 := transferInputToken p route.input.wrappedAddress maxAmountIn
          route.input.isNative
        let p2 := encodeBoostedExactOutputSteps p1 steps amounts true maxAmountIn
          minAmountOut opts.recipient route.output.isNative
        let p3 := unwrapOutputIfNative p2 opts.recipient route.output.isNative
        let p4 := unwindIntermediateTokens p3 steps
        (sweepUnusedInput p4 route.input.wrappedAddress opts.recipient
          route.input.isNative, none)

/-- `OmegaTrade.encodeRegularRoute`. -/
def encodeRegularRoute (t : TradeM) (opts : SwapOptionsM) (route : RegularRouteM)
    (p : RoutePlanner) : RoutePlanner :=
  let recipient := opts.recipient
  let isInputNative := route.input.isNative
  let isOutputNative := route.output.isNative
  if t.exactInput then
    let amountIn := Amt.lit t.inputAmountQ
    let minAmountOut := Amt.lit t.minAmountOutQ
    let p1 := transferInputToken p route.input.wrappedAddress amountIn isInputNative
    let swapRecipient := if isOutputNative then Addr.addressThis else recipient
    let p2 := p1.add .INTEGRAL_SWAP_EXACT_IN [.addr swapRecipient, .amt amountIn,
      .amt minAmountOut, .path (.regularRoutePath route.input route.output false),
      .boolean false]
    unwrapOutputIfNative p2 recipient isOutputNative
  else
    let amountOut := Amt.lit t.outputAmountQ
    let maxAmountIn := Amt.lit t.maxAmountInQ
    let p1 := transferInputToken p route.input.wrappedAddress maxAmountIn isInputNative
    let swapRecipient := if isOutputNative then Addr.addressThis else recipient
    let p2 := p1.add .INTEGRAL_SWAP_EXACT_OUT [.addr swapRecipient, .amt amountOut,
      .amt maxAmountIn, .path (.regularRoutePath route.input route.output true),
      .boolean false]
    let p3 := unwrapOutputIfNative p2 recipient isOutputNative
    sweepUnusedInput p3 route.input.wrappedAddress recipient isInputNative

/-- `OmegaTrade.encodeBoostedRoute`. -/
def encodeBoostedRoute (t : TradeM) (opts : SwapOptionsM) (route : BoostedRouteM)
    (p : RoutePlanner) : RoutePlanner × Option EncodeError :=
  if t.exactInput then
    (encodeBoostedExactInput t opts route p, none)
  else
    encodeBoostedExactOutput t opts route p

/-- `OmegaTrade.encode`: destructures `this.trade.swaps[0]` and dispatches on
`route.isBoosted`.  An empty `swaps` array makes the destructuring throw a
TypeError, modelled by `EncodeError.emptySwaps`. -/
def OmegaTradeEncode (t : TradeM) (opts : SwapOptionsM) (p : RoutePlanner) :
    RoutePlanner × Option EncodeError :=
  match t.swaps with
  | [] => (p, some .emptySwaps)
  | route :: _ =>
      match route with
      | .boosted b => encodeBoostedRoute t opts b p
      | .regular r => (encodeRegularRoute t opts r p, none)

/-- C10: `RoutePlanner.addCommand` with `allowRevert = true` and an opcode
outside the revertible whitelist (exactly `EXECUTE_SUB_PLAN`) fails — after
the ABI-encoded blob has been pushed onto `inputs` and before any opcode
byte is appended to `commands`, leaving one more input blob than new opcode
bytes; every other call succeeds, appending exactly one opcode byte and one
input blob. -/
theorem addCommand_revert_policy (p : RoutePlanner) (ty : CommandType) (params : List Param) :
    (ty ∉ REVERTIBLE_COMMANDS →
      p.addCommand ty params true =
        ({ p with inputs := p.inputs ++ [abiEncode ty params] },
          some (.invalidRevertFlag ty)) ∧
      (p.addCommand ty params true).1.commands = p.commands ∧
      (p.addCommand ty params true).1.inputs.length = p.inputs.length + 1) ∧
    REVERTIBLE_COMMANDS = [CommandType.EXECUTE_SUB_PLAN] ∧
    (p.addCommand ty params false =
      ({ commands := p.commands ++ [ty.toByte],
         inputs := p.inputs ++ [abiEncode ty params] }, none)) ∧
    (ty ∈ REVERTIBLE_COMMANDS →
      p.addCommand ty params true =
        ({ commands := p.commands ++ [ty.toByte ||| ALLOW_REVERT_FLAG],
           inputs := p.inputs ++ [abiEncode ty params] }, none)) := by
  refine ⟨fun h => ?_, rfl, ?_, fun h => ?_⟩
  · simp [RoutePlanner.addCommand, h]
  · simp [RoutePlanner.addCommand]
  · simp [RoutePlanner.addCommand, h]

/-- Witness for `addCommand_revert_policy` at a concrete non-revertible
opcode: the failing call leaves the pushed blob and no opcode byte. -/
theorem addCommand_revert_policy_witness :
    RoutePlanner.empty.addCommand .SWEEP [] true =
      ({ commands := [], inputs := [abiEncode .SWEEP []] },
        some (.invalidRevertFlag .SWEEP)) := by
  have h := (addCommand_revert_policy RoutePlanner.empty .SWEEP []).1 (by decide)
  simpa [RoutePlanner.empty] using h.1

/-- C9: `OmegaTrade.encode` reads only `trade.swaps[0]`; any further routes
of the trade contribute nothing to the emitted plan. -/
theorem OmegaTradeEncode_usesFirstSwapOnly (t : TradeM) (opts : SwapOptionsM)
    (p : RoutePlanner) (r : RouteM) (rest : List RouteM) :
    OmegaTradeEncode { t with swaps := r :: rest } opts p =
    OmegaTradeEncode { t with swaps := [r] } opts p := by
  cases t with
  | mk e s i o m x => cases r <;> rfl

/-- The transfer-in command of `OmegaTrade.transferInputToken`, as a value:
`WRAP_ETH` (to router custody) for native input, else
`PERMIT2_TRANSFER_FROM` to the router. -/
def transferInCmd (input : CurrencyM) (amount : Amt) : Cmd :=
  if input.isNative then ⟨.WRAP_ETH, [.addr .addressThis, .amt amount]⟩
  else ⟨.PERMIT2_TRANSFER_FROM, [.addr input.wrappedAddress, .addr .routerAddr, .amt amount]⟩

theorem transferInputToken_eq (p : RoutePlanner) (input : CurrencyM) (amount : Amt) :
    transferInputToken p input.wrappedAddress amount input.isNative =
      p.appendCmds [transferInCmd input amount] := by
  cases h : input.isNative <;>
    simp [transferInputToken, transferInCmd, h, RoutePlanner.add_eq_appendCmds]

theorem unwrapOutputIfNative_eq (p : RoutePlanner) (recipient : Addr) (isNative : Bool) :
    unwrapOutputIfNative p recipient isNative =
      p.appendCmds (if isNative then [⟨.UNWRAP_WETH, [.addr recipient, .num 0]⟩] else []) := by
  cases isNative <;>
    simp [unwrapOutputIfNative, RoutePlanner.add_eq_appendCmds, RoutePlanner.appendCmds_nil]

/-- The refund command of `OmegaTrade.sweepUnusedInput`, as a value. -/
def sweepCmd (inputWrapped recipient : Addr) (isNative : Bool) : Cmd :=
  if isNative then ⟨.UNWRAP_WETH, [.addr recipient, .num 0]⟩
  else ⟨.SWEEP, [.addr inputWrapped, .addr recipient, .num 0]⟩

theorem sweepUnusedInput_eq (p : RoutePlanner) (tokenAddress recipient : Addr)
    (isNative : Bool) :
    sweepUnusedInput p tokenAddress recipient isNative =
      p.appendCmds [sweepCmd tokenAddress recipient isNative] := by
  cases isNative <;>
    simp [sweepUnusedInput, sweepCmd, RoutePlanner.add_eq_appendCmds]

/-- C7: for every plain route encoded EXACT_OUTPUT the plan is, in order, a
transfer-in of `maximumAmountIn` (`WRAP_ETH` when the input is native, else
`PERMIT2_TRANSFER_FROM`), one exact-output swap carrying the exact
`amountOut` and that same maximum as `amountInMax`, an `UNWRAP_WETH` to the
recipient when the output is native, and a trailing refund of unused input
(`UNWRAP_WETH` for native input, else `SWEEP` of the input token). -/
theorem encodeRegularRoute_exactOutput_plan (t : TradeM) (opts : SwapOptionsM)
    (r : RegularRouteM) (p : RoutePlanner) (h : t.exactInput = false) :
    encodeRegularRoute t opts r p =
      p.appendCmds
        ([transferInCmd r.input (Amt.lit t.maxAmountInQ)] ++
         [⟨.INTEGRAL_SWAP_EXACT_OUT,
            [.addr (if r.output.isNative then Addr.addressThis else opts.recipient),
             .amt (.lit t.outputAmountQ), .amt (.lit t.maxAmountInQ),
             .path (.regularRoutePath r.input r.output true), .boolean false]⟩] ++
         (if r.output.isNative then [⟨.UNWRAP_WETH, [.addr opts.recipient, .num 0]⟩] else []) ++
         [sweepCmd r.input.wrappedAddress opts.recipient r.input.isNative]) := by
  rw [encodeRegularRoute]
  simp only [h, Bool.false_eq_true, if_false]
  rw [transferInputToken_eq, RoutePlanner.add_eq_appendCmds, unwrapOutputIfNative_eq,
    sweepUnusedInput_eq]
  simp [RoutePlanner.appendCmds_append]

/-- Witness for `encodeRegularRoute_exactOutput_plan`: a concrete
native-output EXACT_OUTPUT plain route. -/
theorem encodeRegularRoute_exactOutput_plan_witness :
    encodeRegularRoute
      { exactInput := false, swaps := [], inputAmountQ := 5, outputAmountQ := 80,
        minAmountOutQ := 0, maxAmountInQ := 100 }
      { recipient := .named "alice", stepAmountsOut := none }
      { input := ⟨false, .named "usdc", .named "usdc"⟩,
        output := ⟨true, .named "eth", .named "weth"⟩ }
      RoutePlanner.empty =
    RoutePlanner.empty.appendCmds
      ([transferInCmd ⟨false, .named "usdc", .named "usdc"⟩ (Amt.lit 100)] ++
       [⟨.INTEGRAL_SWAP_EXACT_OUT,
          [.addr .addressThis, .amt (.lit 80), .amt (.lit 100),
           .path (.regularRoutePath ⟨false, .named "usdc", .named "usdc"⟩
             ⟨true, .named "eth", .named "weth"⟩ true), .boolean false]⟩] ++
       [⟨.UNWRAP_WETH, [.addr (.named "alice"), .num 0]⟩] ++
       [sweepCmd (.named "usdc") (.named "alice") false]) := by
  have h := encodeRegularRoute_exactOutput_plan
    { exactInput := false, swaps := [], inputAmountQ := 5, outputAmountQ := 80,
      minAmountOutQ := 0, maxAmountInQ := 100 }
    { recipient := .named "alice", stepAmountsOut := none }
    { input := ⟨false, .named "usdc", .named "usdc"⟩,
      output := ⟨true, .named "eth", .named "weth"⟩ }
    RoutePlanner.empty rfl
  simpa using h

/-- Map with the element's position, from a starting offset. -/
def mapWithIndexGo (f : Nat → α → β) : Nat → List α → List β
  | _, [] => []
  | i, x :: xs => f i x :: mapWithIndexGo f (i + 1) xs

/-- Map with the element's position. -/
def mapWithIndex (f : Nat → α → β) (l : List α) : List β := mapWithIndexGo f 0 l

/-- The command C2 expects for the step at position `i` of an EXACT_INPUT
boosted route with `n` steps: amount `exactIn` only at the first step and
the balance sentinel after; minimum-out bound and real recipient only at the
final step. -/
def eiExpectedStepCmd (n : Nat) (exactIn minOut : Amt) (finalRecipient : Addr)
    (i : Nat) (s : StepM) : Cmd :=
  encodeStepCmd s
    (if i = 0 then exactIn else Amt.contractBalance)
    (Amt.lit 0)
    (if i = n - 1 then minOut else Amt.lit 0)
    (if i = n - 1 then finalRecipient else Addr.addressThis)
    false

theorem encodeBoostedExactInputSteps_go (N : Nat) (steps : List StepM) (k : Nat)
    (p : RoutePlanner) (amount minAmountOut : Amt) (recipient : Addr)
    (isOutputNative : Bool) (hN : k + steps.length = N) :
    encodeBoostedExactInputSteps p steps (k == 0) amount minAmountOut recipient
        isOutputNative =
      p.appendCmds
        (mapWithIndexGo
          (eiExpectedStepCmd N amount minAmountOut
            (if isOutputNative then Addr.addressThis else recipient))
          k steps) := by
  induction steps generalizing k p with
  | nil =>
      simp [encodeBoostedExactInputSteps, mapWithIndexGo, RoutePlanner.appendCmds_nil]
  | cons s rest ih =>
      by_cases hl : rest = []
      · subst hl
        have hk : k = N - 1 := by simp at hN; omega
        simp only [encodeBoostedExactInputSteps, List.isEmpty_nil, mapWithIndexGo,
          eiExpectedStepCmd, encodeStep, if_pos hk]
        rw [RoutePlanner.push_eq_appendCmds]
        have hfirst : ((k == 0) = true) = (k = 0) := by simp
        by_cases h0 : k = 0 <;> simp [h0]
      · have hlen : 0 < rest.length := List.length_pos.mpr hl
        have hk : k ≠ N - 1 := by simp at hN; omega
        have hne : rest.isEmpty = false := by simpa [List.isEmpty_iff] using hl
        simp only [encodeBoostedExactInputSteps, hne, Bool.false_eq_true, if_false,
          mapWithIndexGo]
        have hstep : (Nat.succ k == 0) = false := rfl
        have := ih (k + 1)
          (encodeStep p s (if (k == 0) = true then amount else Amt.contractBalance)
            (Amt.lit 0) (Amt.lit 0) Addr.addressThis false)
          (by simp at hN ⊢; omega)
        rw [show (false = ((k + 1) == 0)) from rfl] at *
        rw [this]
        rw [encodeStep, RoutePlanner.push_eq_appendCmds, RoutePlanner.appendCmds_append]
        congr 1
        simp only [eiExpectedStepCmd, if_neg hk, List.singleton_append]
        by_cases h0 : k = 0 <;> simp [h0]

/-- C2: for every boosted route encoded EXACT_INPUT the plan is exactly one
transfer-in command followed by one command per step in route order — the
first step's amount is the exact input amount and every later step uses the
balance sentinel; every non-final step pays to router custody with a zero
minimum-out bound; the final step's bound is `trade.minimumAmountOut` and
its recipient the real recipient (or custody followed by a trailing
`UNWRAP_WETH` when the output is native). -/
theorem encodeBoostedExactInput_plan (t : TradeM) (opts : SwapOptionsM)
    (b : BoostedRouteM) (p : RoutePlanner) :
    encodeBoostedExactInput t opts b p =
      p.appendCmds
        ([transferInCmd b.input (Amt.lit t.inputAmountQ)] ++
         mapWithIndex
           (eiExpectedStepCmd b.steps.length (Amt.lit t.inputAmountQ)
             (Amt.lit t.minAmountOutQ)
             (if b.output.isNative then Addr.addressThis else opts.recipient))
           b.steps ++
         (if b.output.isNative then [⟨.UNWRAP_WETH, [.addr opts.recipient, .num 0]⟩]
          else [])) := by
  rw [encodeBoostedExactInput, transferInputToken_eq]
  rw [show (true = ((0 : Nat) == 0)) from rfl]
  rw [encodeBoostedExactInputSteps_go b.steps.length b.steps 0 _ _ _ _ _ (by simp)]
  rw [unwrapOutputIfNative_eq]
  rw [RoutePlanner.appendCmds_append, RoutePlanner.appendCmds_append]
  rfl

/-- The commands the EXACT_OUTPUT boosted step loop emits, as a list: the
first step takes `maximumAmountIn`, later steps the balance sentinel; each
step carries its caller-supplied exact `stepAmountsOut` entry; only the
final step gets the real minimum-out bound and recipient; SWAP steps use the
exact-output swap command. -/
def eoExpectedStepCmds (steps : List StepM) (amountsOut : List Nat) (first : Bool)
    (maxAmountIn minAmountOut : Amt) (finalRecipient : Addr) : List Cmd :=
  match steps, amountsOut with
  | step :: rest, aOut :: aRest =>
      encodeStepCmd step (if first then maxAmountIn else Amt.contractBalance)
        (Amt.lit aOut)
        (if rest.isEmpty then minAmountOut else Amt.lit 0)
        (if rest.isEmpty then finalRecipient else Addr.addressThis)
        (step.type == StepType.SWAP)
      :: eoExpectedStepCmds rest aRest false maxAmountIn minAmountOut finalRecipient
  | _, _ => []

theorem encodeBoostedExactOutputSteps_eq (steps : List StepM) (amountsOut : List Nat)
    (first : Bool) (p : RoutePlanner) (maxAmountIn minAmountOut : Amt)
    (recipient : Addr) (isOutputNative : Bool) :
    encodeBoostedExactOutputSteps p steps amountsOut first maxAmountIn minAmountOut
        recipient isOutputNative =
      p.appendCmds
        (eoExpectedStepCmds steps amountsOut first maxAmountIn minAmountOut
          (if isOutputNative then Addr.addressThis else recipient)) := by
  induction steps generalizing amountsOut first p with
  | nil =>
      cases amountsOut <;>
        simp [encodeBoostedExactOutputSteps, eoExpectedStepCmds,
          RoutePlanner.appendCmds_nil]
  | cons s rest ih =>
      cases amountsOut with
      | nil =>
          simp [encodeBoostedExactOutputSteps, eoExpectedStepCmds,
            RoutePlanner.appendCmds_nil]
      | cons a aRest =>
          rw [encodeBoostedExactOutputSteps, eoExpectedStepCmds]
          rw [ih aRest false]
          rw [encodeStep, RoutePlanner.push_eq_appendCmds,
            RoutePlanner.appendCmds_append]
          by_cases hr : rest.isEmpty <;> by_cases ho : isOutputNative <;>
            simp [hr, ho]

theorem unwindIntermediateTokens_eq (p : RoutePlanner) (steps : List StepM) :
    unwindIntermediateTokens p steps =
      p.appendCmds ((steps.dropLast.reverse).filterMap unwindStepCmd) := by
  rw [unwindIntermediateTokens]
  generalize steps.dropLast.reverse = l
  induction l generalizing p with
  | nil => simp [RoutePlanner.appendCmds_nil]
  | cons s rest ih =>
      rw [List.foldl_cons, List.filterMap_cons]
      cases h : unwindStepCmd s with
      | none => rw [ih]
      | some c =>
          rw [ih]
          simp [RoutePlanner.push_eq_appendCmds, RoutePlanner.appendCmds_append]

/-- C4 (full success-case characterization of
`OmegaTrade.encodeBoostedExactOutput`): after the transfer-in and the
forward step commands (and the native-output unwrap, when present), the
encoder emits — for each step except the last, in reverse step order — the
inverse vault operation on the router's full remaining balance
(`ERC4626_UNWRAP` of the step's vault token for a forward WRAP step,
`ERC4626_WRAP` for a forward UNWRAP step, nothing for SWAP steps), and this
reverse unwind precedes the final sweep/unwrap refund of unused input. -/
theorem encodeBoostedExactOutput_plan (t : TradeM) (opts : SwapOptionsM)
    (b : BoostedRouteM) (p : RoutePlanner) (amounts : List Nat)
    (h1 : swapCount b.steps = 1) (h2 : opts.stepAmountsOut = some amounts)
    (h3 : amounts.length = b.steps.length) :
    encodeBoostedExactOutput t opts b p =
      (p.appendCmds
        ([transferInCmd b.input (Amt.lit t.maxAmountInQ)] ++
         eoExpectedStepCmds b.steps amounts true (Amt.lit t.maxAmountInQ)
           (Amt.lit t.minAmountOutQ)
           (if b.output.isNative then Addr.addressThis else opts.recipient) ++
         (if b.output.isNative then [⟨.UNWRAP_WETH, [.addr opts.recipient, .num 0]⟩]
          else []) ++
         ((b.steps.dropLast.reverse).filterMap unwindStepCmd) ++
         [sweepCmd b.input.wrappedAddress opts.recipient b.input.isNative]),
        none) := by
  rw [encodeBoostedExactOutput]
  simp only [h1, h2, h3, ne_eq, not_true_eq_false, if_false, ite_false, if_neg,
    not_false_eq_true]
  rw [transferInputToken_eq, encodeBoostedExactOutputSteps_eq, unwrapOutputIfNative_eq,
    unwindIntermediateTokens_eq, sweepUnusedInput_eq]
  simp [RoutePlanner.appendCmds_append]

/-- Witness for `encodeBoostedExactOutput_plan`: a concrete WRAP–SWAP–UNWRAP
exact-output boosted route with matching `stepAmountsOut`. -/
theorem encodeBoostedExactOutput_plan_witness :
    encodeBoostedExactOutput
      { exactInput := false, swaps := [], inputAmountQ := 0, outputAmountQ := 30,
        minAmountOutQ := 29, maxAmountInQ := 11 }
      { recipient := .named "alice", stepAmountsOut := some [10, 20, 30] }
      { input := ⟨false, .named "A", .named "A"⟩,
        output := ⟨false, .named "B", .named "B"⟩,
        steps :=
          [⟨.WRAP, ⟨false, .named "A", .named "A"⟩, ⟨false, .named "vA", .named "vA"⟩, none⟩,
           ⟨.SWAP, ⟨false, .named "vA", .named "vA"⟩, ⟨false, .named "vB", .named "vB"⟩,
             some ⟨.named "dep"⟩⟩,
           ⟨.UNWRAP, ⟨false, .named "vB", .named "vB"⟩, ⟨false, .named "B", .named "B"⟩,
             none⟩] }
      RoutePlanner.empty =
      (RoutePlanner.empty.appendCmds
        ([transferInCmd ⟨false, .named "A", .named "A"⟩ (Amt.lit 11)] ++
         eoExpectedStepCmds
           [⟨.WRAP, ⟨false, .named "A", .named "A"⟩, ⟨false, .named "vA", .named "vA"⟩, none⟩,
            ⟨.SWAP, ⟨false, .named "vA", .named "vA"⟩, ⟨false, .named "vB", .named "vB"⟩,
              some ⟨.named "dep"⟩⟩,
            ⟨.UNWRAP, ⟨false, .named "vB", .named "vB"⟩, ⟨false, .named "B", .named "B"⟩,
              none⟩]
           [10, 20, 30] true (Amt.lit 11) (Amt.lit 29) (.named "alice") ++
         [] ++
         (([⟨.WRAP, ⟨false, .named "A", .named "A"⟩, ⟨false, .named "vA", .named "vA"⟩, none⟩,
            ⟨.SWAP, ⟨false, .named "vA", .named "vA"⟩, ⟨false, .named "vB", .named "vB"⟩,
              some ⟨.named "dep"⟩⟩,
            ⟨.UNWRAP, ⟨false, .named "vB", .named "vB"⟩, ⟨false, .named "B", .named "B"⟩,
              none⟩].dropLast.reverse).filterMap unwindStepCmd) ++
         [sweepCmd (.named "A") (.named "alice") false]),
        none) := by
  have h := encodeBoostedExactOutput_plan
    { exactInput := false, swaps := [], inputAmountQ := 0, outputAmountQ := 30,
      minAmountOutQ := 29, maxAmountInQ := 11 }
    { recipient := .named "alice", stepAmountsOut := some [10, 20, 30] }
    { input := ⟨false, .named "A", .named "A"⟩,
      output := ⟨false, .named "B", .named "B"⟩,
      steps :=
        [⟨.WRAP, ⟨false, .named "A", .named "A"⟩, ⟨false, .named "vA", .named "vA"⟩, none⟩,
         ⟨.SWAP, ⟨false, .named "vA", .named "vA"⟩, ⟨false, .named "vB", .named "vB"⟩,
           some ⟨.named "dep"⟩⟩,
         ⟨.UNWRAP, ⟨false, .named "vB", .named "vB"⟩, ⟨false, .named "B", .named "B"⟩,
           none⟩] }
    RoutePlanner.empty [10, 20, 30] (by decide) rfl (by decide)
  simpa using h

/-- C3: an EXACT_OUTPUT boosted route whose SWAP-step count is not one, or
whose `stepAmountsOut` is absent or of the wrong length, makes the encoder
throw a validation error naming the violated precondition, with the planner
untouched (no partial plan). -/
theorem encodeBoostedExactOutput_validation (t : TradeM) (opts : SwapOptionsM)
    (b : BoostedRouteM) (p : RoutePlanner)
    (h : 1 < swapCount b.steps ∨
      (∀ a, opts.stepAmountsOut = some a → a.length ≠ b.steps.length)) :
    encodeBoostedExactOutput t opts b p =
      (p, some
        (if swapCount b.steps ≠ 1 then .wrongSwapCount (swapCount b.steps)
         else .stepAmountsOutMissing b.steps.length)) := by
  rw [encodeBoostedExactOutput]
  by_cases hs : swapCount b.steps = 1
  · rcases h with h1 | h2
    · omega
    · cases ho : opts.stepAmountsOut with
      | none => simp [hs]
      | some a =>
          have hx := h2 a ho
          simp [hs, ho, hx]
  · simp [hs]

/-- Witness for `encodeBoostedExactOutput_validation`: a boosted
EXACT_OUTPUT route with two SWAP steps and no `stepAmountsOut` fails with
the swap-count error and leaves the planner empty. -/
theorem encodeBoostedExactOutput_validation_witness :
    encodeBoostedExactOutput
      { exactInput := false, swaps := [], inputAmountQ := 0, outputAmountQ := 0,
        minAmountOutQ := 0, maxAmountInQ := 0 }
      { recipient := .named "alice", stepAmountsOut := none }
      { input := ⟨false, .named "A", .named "A"⟩,
        output := ⟨false, .named "B", .named "B"⟩,
        steps :=
          [⟨.SWAP, ⟨false, .named "A", .named "A"⟩, ⟨false, .named "C", .named "C"⟩, none⟩,
           ⟨.SWAP, ⟨false, .named "C", .named "C"⟩, ⟨false, .named "B", .named "B"⟩, none⟩] }
      RoutePlanner.empty =
      (RoutePlanner.empty, some (.wrongSwapCount 2)) := by
  have h := encodeBoostedExactOutput_validation
    { exactInput := false, swaps := [], inputAmountQ := 0, outputAmountQ := 0,
      minAmountOutQ := 0, maxAmountInQ := 0 }
    { recipient := .named "alice", stepAmountsOut := none }
    { input := ⟨false, .named "A", .named "A"⟩,
      output := ⟨false, .named "B", .named "B"⟩,
      steps :=
        [⟨.SWAP, ⟨false, .named "A", .named "A"⟩, ⟨false, .named "C", .named "C"⟩, none⟩,
         ⟨.SWAP, ⟨false, .named "C", .named "C"⟩, ⟨false, .named "B", .named "B"⟩, none⟩] }
    RoutePlanner.empty (Or.inl (by decide))
  simpa using h

/-! ## Binary boosted path encoder (`src/utils/encodePath.ts`)

Addresses here are modelled as their 20-byte values (lists of bytes); the
TypeScript hex-string concatenation `'0x' + ...slice(2).toLowerCase()` is
byte-for-byte this concatenation. -/

/-- The `WrapAction` enum (`NONE: 0, WRAP: 1, UNWRAP: 2`). -/
inductive WrapAction where
  | NONE
  | WRAP
  | UNWRAP
deriving DecidableEq, Repr

/-- The numeric value of a `WrapAction` (the single byte the encoder
writes). -/
def WrapAction.toByte : WrapAction → Nat
  | .NONE => 0
  | .WRAP => 1
  | .UNWRAP => 2

/-- `interface BoostedPoolHop`, with address fields as 20-byte lists. -/
structure BoostedPoolHop where
  tokenOut : List Nat
  wrapOut : WrapAction
  poolTokenOut : List Nat
  deployer : List Nat
  poolTokenIn : List Nat
  wrapIn : WrapAction
  tokenIn : List Nat
deriving DecidableEq, Repr

/-- A hop is well formed when each of its address fields is 20 bytes (every
hex address string has 40 hex digits). -/
def wfHop (h : BoostedPoolHop) : Prop :=
  h.tokenOut.length = 20 ∧ h.poolTokenOut.length = 20 ∧ h.deployer.length = 20 ∧
    h.poolTokenIn.length = 20 ∧ h.tokenIn.length = 20

instance (h : BoostedPoolHop) : Decidable (wfHop h) := by
  unfold wfHop; infer_instance

/-- The bytes one loop iteration of `encodeBoostedPathExactOutput` writes for
a hop, without the trailing `tokenIn` (which is only written on the last
hop). -/
def hopRecord (h : BoostedPoolHop) : List Nat :=
  h.tokenOut ++ [h.wrapOut.toByte] ++ h.poolTokenOut ++ h.deployer ++
    h.poolTokenIn ++ [h.wrapIn.toByte]

/-- `encodeBoostedPathExactOutput`: concatenates each hop's record and
appends `tokenIn` on the last hop only. -/
def encodeBoostedPathExactOutput : List BoostedPoolHop → List Nat
  | [] => []
  | [h] => hopRecord h ++ h.tokenIn
  | h :: h2 :: rest => hopRecord h ++ encodeBoostedPathExactOutput (h2 :: rest)

theorem hopRecord_length (h : BoostedPoolHop) (hw : wfHop h) :
    (hopRecord h).length = 82 := by
  obtain ⟨h1, h2, h3, h4, h5⟩ := hw
  simp [hopRecord, h1, h2, h3, h4]

theorem encodeBoostedPathExactOutput_length (hops : List BoostedPoolHop)
    (hne : hops ≠ []) (hw : ∀ h ∈ hops, wfHop h) :
    (encodeBoostedPathExactOutput hops).length = 82 * hops.length + 20 := by
  induction hops with
  | nil => exact absurd rfl hne
  | cons h rest ih =>
      cases rest with
      | nil =>
          have hwh := hw h (by simp)
          simp [encodeBoostedPathExactOutput, hopRecord_length h hwh, hwh.2.2.2.2]
      | cons h2 rest2 =>
          have hwh := hw h (by simp)
          rw [encodeBoostedPathExactOutput, List.length_append,
            hopRecord_length h hwh,
            ih (by simp) (fun x hx => hw x (List.mem_cons_of_mem h hx))]
          simp [List.length_cons]
          ring

/-- Parse one wrap-action byte (inverse of `WrapAction.toByte`). -/
def parseWrapByte (b : Nat) : Option WrapAction :=
  if b = 0 then some .NONE
  else if b = 1 then some .WRAP
  else if b = 2 then some .UNWRAP
  else none

theorem parseWrapByte_toByte (w : WrapAction) : parseWrapByte w.toByte = some w := by
  cases w <;> rfl

/-- Modelled from the spec: the inverse parser of the boosted exact-output
path lives in the on-chain router contract, which is not part of this
repository; this decoder is defined from the documented fixed-width record
layout — records of `tokenOut(20) | wrapOut(1) | poolTokenOut(20) |
deployer(20) | poolTokenIn(20) | wrapIn(1)` chained so that each record's
`tokenIn` is read from the following record's `tokenOut`, with a trailing
explicit 20-byte `tokenIn` after the last record. -/
def decodeBoostedGo (bs : List Nat) : Option (List BoostedPoolHop) :=
  if h : bs.length < 102 then none
  else
    match parseWrapByte ((bs.drop 20).headD 0), parseWrapByte ((bs.drop 81).headD 0) with
    | some wrapOut, some wrapIn =>
        let tokenOut := bs.take 20
        let poolTokenOut := (bs.drop 21).take 20
        let deployer := (bs.drop 41).take 20
        let poolTokenIn := (bs.drop 61).take 20
        let rest := bs.drop 82
        if rest.length = 20 then
          some [⟨tokenOut, wrapOut, poolTokenOut, deployer, poolTokenIn, wrapIn, rest⟩]
        else
          match decodeBoostedGo rest with
          | some tl =>
              some (⟨tokenOut, wrapOut, poolTokenOut, deployer, poolTokenIn, wrapIn,
                rest.take 20⟩ :: tl)
          | none => none
    | _, _ => none
termination_by bs.length
decreasing_by simp [List.length_drop]; omega

/-- Modelled from the spec (see `decodeBoostedGo`): the inverse parser of
`encodeBoostedPathExactOutput`; the empty byte string decodes to the empty
hop list. -/
def decodeBoostedPathExactOutput (bs : List Nat) : Option (List BoostedPoolHop) :=
  if bs.isEmpty then some [] else decodeBoostedGo bs

/-- Replace each non-final hop's `tokenIn` by the next hop's `tokenOut` —
exactly the information the chained encoding retains. -/
def chainHops : List BoostedPoolHop → List BoostedPoolHop
  | [] => []
  | [h] => [h]
  | h :: h2 :: rest => { h with tokenIn := h2.tokenOut } :: chainHops (h2 :: rest)

/-- The fields of a hop that are stored in its own record (everything except
the chained `tokenIn`). -/
def hopFields (h : BoostedPoolHop) :
    List Nat × WrapAction × List Nat × List Nat × List Nat × WrapAction :=
  (h.tokenOut, h.wrapOut, h.poolTokenOut, h.deployer, h.poolTokenIn, h.wrapIn)

theorem chainHops_map_hopFields (hops : List BoostedPoolHop) :
    (chainHops hops).map hopFields = hops.map hopFields := by
  induction hops with
  | nil => rfl
  | cons h rest ih =>
      cases rest with
      | nil => rfl
      | cons h2 t =>
          rw [chainHops, List.map_cons, List.map_cons, ih]
          rfl

theorem getLast?_cons_of_ne_nil (x : α) (L : List α) (h : L ≠ []) :
    (x :: L).getLast? = L.getLast? := by
  cases L with
  | nil => exact absurd rfl h
  | cons b l => exact List.getLast?_cons_cons

theorem chainHops_ne_nil (a : BoostedPoolHop) (l : List BoostedPoolHop) :
    chainHops (a :: l) ≠ [] := by
  cases l <;> simp [chainHops]

theorem chainHops_getLast? (hops : List BoostedPoolHop) :
    (chainHops hops).getLast? = hops.getLast? := by
  induction hops with
  | nil => rfl
  | cons h rest ih =>
      cases rest with
      | nil => rfl
      | cons h2 t =>
          rw [chainHops, getLast?_cons_of_ne_nil _ _ (chainHops_ne_nil h2 t), ih,
            List.getLast?_cons_cons]

/-- Splitting the byte stream at every field boundary of a leading hop
record recovers that hop's stored fields and the remainder. -/
theorem hopRecord_decomp (h : BoostedPoolHop) (hw : wfHop h) (rest : List Nat) :
    (hopRecord h ++ rest).take 20 = h.tokenOut ∧
    ((hopRecord h ++ rest).drop 20).headD 0 = h.wrapOut.toByte ∧
    ((hopRecord h ++ rest).drop 21).take 20 = h.poolTokenOut ∧
    ((hopRecord h ++ rest).drop 41).take 20 = h.deployer ∧
    ((hopRecord h ++ rest).drop 61).take 20 = h.poolTokenIn ∧
    ((hopRecord h ++ rest).drop 81).headD 0 = h.wrapIn.toByte ∧
    (hopRecord h ++ rest).drop 82 = rest := by
  obtain ⟨l1, l2, l3, l4, l5⟩ := hw
  have e : hopRecord h ++ rest =
      h.tokenOut ++ (h.wrapOut.toByte ::
        (h.poolTokenOut ++ (h.deployer ++ (h.poolTokenIn ++
          (h.wrapIn.toByte :: rest))))) := by
    simp [hopRecord]
  have d20 : (hopRecord h ++ rest).drop 20 =
      h.wrapOut.toByte ::
        (h.poolTokenOut ++ (h.deployer ++ (h.poolTokenIn ++ (h.wrapIn.toByte :: rest)))) := by
    rw [e, ← l1, List.drop_left]
  have d21 : (hopRecord h ++ rest).drop 21 =
      h.poolTokenOut ++ (h.deployer ++ (h.poolTokenIn ++ (h.wrapIn.toByte :: rest))) := by
    rw [show (21 : Nat) = 20 + 1 from rfl, ← List.drop_drop, d20, List.drop_one,
      List.tail_cons]
  have d41 : (hopRecord h ++ rest).drop 41 =
      h.deployer ++ (h.poolTokenIn ++ (h.wrapIn.toByte :: rest)) := by
    rw [show (41 : Nat) = 21 + 20 from rfl, ← List.drop_drop, d21, ← l2, List.drop_left]
  have d61 : (hopRecord h ++ rest).drop 61 =
      h.poolTokenIn ++ (h.wrapIn.toByte :: rest) := by
    rw [show (61 : Nat) = 41 + 20 from rfl, ← List.drop_drop, d41, ← l3, List.drop_left]
  have d81 : (hopRecord h ++ rest).drop 81 = h.wrapIn.toByte :: rest := by
    rw [show (81 : Nat) = 61 + 20 from rfl, ← List.drop_drop, d61, ← l4, List.drop_left]
  have d82 : (hopRecord h ++ rest).drop 82 = rest := by
    rw [show (82 : Nat) = 81 + 1 from rfl, ← List.drop_drop, d81, List.drop_one,
      List.tail_cons]
  refine ⟨?_, ?_, ?_, ?_, ?_, ?_, d82⟩
  · rw [e, ← l1, List.take_left]
  · rw [d20]; rfl
  · rw [d21, ← l2, List.take_left]
  · rw [d41, ← l3, List.take_left]
  · rw [d61, ← l4, List.take_left]
  · rw [d81]; rfl

theorem decodeBoostedGo_encode :
    ∀ hops : List BoostedPoolHop, hops ≠ [] → (∀ h ∈ hops, wfHop h) →
      decodeBoostedGo (encodeBoostedPathExactOutput hops) = some (chainHops hops) := by
  intro hops
  induction hops with
  | nil => intro hne _; exact absurd rfl hne
  | cons h rest ih =>
      intro _ hw
      have hwh := hw h (by simp)
      cases rest with
      | nil =>
          obtain ⟨t20, w20, t21, t41, t61, w81, d82⟩ := hopRecord_decomp h hwh h.tokenIn
          have hL : (hopRecord h ++ h.tokenIn).length = 102 := by
            rw [List.length_append, hopRecord_length h hwh, hwh.2.2.2.2]
          rw [show encodeBoostedPathExactOutput [h] = hopRecord h ++ h.tokenIn from rfl,
            decodeBoostedGo]
          rw [dif_neg (by rw [hL]; omega)]
          rw [w20, w81, parseWrapByte_toByte, parseWrapByte_toByte]
          simp only [t20, t21, t41, t61, d82, hwh.2.2.2.2, if_true, chainHops]
      | cons h2 t =>
          have hw2 : ∀ x ∈ h2 :: t, wfHop x := fun x hx => hw x (List.mem_cons_of_mem h hx)
          obtain ⟨t20, w20, t21, t41, t61, w81, d82⟩ :=
            hopRecord_decomp h hwh (encodeBoostedPathExactOutput (h2 :: t))
          have hlen2 : (encodeBoostedPathExactOutput (h2 :: t)).length =
              82 * (h2 :: t).length + 20 :=
            encodeBoostedPathExactOutput_length _ (by simp) hw2
          have hlenbs : (hopRecord h ++ encodeBoostedPathExactOutput (h2 :: t)).length =
              82 + (82 * (h2 :: t).length + 20) := by
            rw [List.length_append, hopRecord_length h hwh, hlen2]
          have hge : ¬ (hopRecord h ++ encodeBoostedPathExactOutput (h2 :: t)).length < 102 := by
            rw [hlenbs]; simp only [List.length_cons]; omega
          have hrest20 : ¬ (encodeBoostedPathExactOutput (h2 :: t)).length = 20 := by
            rw [hlen2]; simp only [List.length_cons]; omega
          have htake : (encodeBoostedPathExactOutput (h2 :: t)).take 20 = h2.tokenOut := by
            cases t with
            | nil => exact (hopRecord_decomp h2 (hw2 h2 (by simp)) h2.tokenIn).1
            | cons h3 t' =>
                exact (hopRecord_decomp h2 (hw2 h2 (by simp))
                  (encodeBoostedPathExactOutput (h3 :: t'))).1
          rw [show encodeBoostedPathExactOutput (h :: h2 :: t) =
              hopRecord h ++ encodeBoostedPathExactOutput (h2 :: t) from rfl,
            decodeBoostedGo]
          rw [dif_neg hge]
          rw [w20, w81, parseWrapByte_toByte, parseWrapByte_toByte]
          simp only [t20, t21, t41, t61, d82, hrest20, if_false, htake,
            ih (by simp) hw2, chainHops]

/-- C1: decoding the bytes produced by `encodeBoostedPathExactOutput` with
the inverse parser reproduces the hop sequence — every `tokenOut`,
`wrapOut`, `poolTokenOut`, `deployer`, `poolTokenIn` and `wrapIn`, and the
final hop's `tokenIn` (the round-trip law; intermediate `tokenIn` fields
are stored as the next record's `tokenOut`). -/
theorem boostedPath_roundTrip (hops : List BoostedPoolHop)
    (hw : ∀ h ∈ hops, wfHop h) :
    ∃ hops', decodeBoostedPathExactOutput (encodeBoostedPathExactOutput hops) = some hops' ∧
      hops'.map hopFields = hops.map hopFields ∧
      hops'.getLast?.map BoostedPoolHop.tokenIn =
        hops.getLast?.map BoostedPoolHop.tokenIn := by
  refine ⟨chainHops hops, ?_, chainHops_map_hopFields hops, by rw [chainHops_getLast?]⟩
  cases hops with
  | nil => rfl
  | cons h t =>
      have hlen := encodeBoostedPathExactOutput_length (h :: t) (by simp) hw
      have hne : encodeBoostedPathExactOutput (h :: t) ≠ [] := by
        intro hcon; rw [hcon] at hlen; simp at hlen
      rw [decodeBoostedPathExactOutput, if_neg (by simpa [List.isEmpty_iff] using hne)]
      exact decodeBoostedGo_encode (h :: t) (by simp) hw

/-- A concrete two-hop list with 20-byte addresses. -/
def hopW1 : BoostedPoolHop :=
  ⟨List.replicate 20 1, .WRAP, List.replicate 20 2, List.replicate 20 3,
    List.replicate 20 4, .NONE, List.replicate 20 5⟩

/-- Second concrete hop. -/
def hopW2 : BoostedPoolHop :=
  ⟨List.replicate 20 6, .UNWRAP, List.replicate 20 7, List.replicate 20 8,
    List.replicate 20 9, .WRAP, List.replicate 20 10⟩

/-- Witness for `boostedPath_roundTrip` on a concrete two-hop path. -/
theorem boostedPath_roundTrip_witness :
    ∃ hops', decodeBoostedPathExactOutput (encodeBoostedPathExactOutput [hopW1, hopW2]) =
        some hops' ∧
      hops'.map hopFields = [hopW1, hopW2].map hopFields ∧
      hops'.getLast?.map BoostedPoolHop.tokenIn =
        [hopW1, hopW2].getLast?.map BoostedPoolHop.tokenIn :=
  boostedPath_roundTrip [hopW1, hopW2] (by decide)

/-- The claim-side byte layout: the concatenation, per hop, of the
fixed-width record `tokenOut(20) | wrapOut(1) | poolTokenOut(20) |
deployer(20) | poolTokenIn(20) | wrapIn(1)`, with `tokenIn(20)` appended
only after the last record. -/
def specBoostedPathBytes (hops : List BoostedPoolHop) : List Nat :=
  (hops.map hopRecord).flatten ++
    (match hops.getLast? with
     | some h => h.tokenIn
     | none => [])

theorem encode_eq_specBoostedPathBytes (hops : List BoostedPoolHop) :
    encodeBoostedPathExactOutput hops = specBoostedPathBytes hops := by
  induction hops with
  | nil => rfl
  | cons h rest ih =>
      cases rest with
      | nil => simp [encodeBoostedPathExactOutput, specBoostedPathBytes]
      | cons h2 t =>
          rw [encodeBoostedPathExactOutput, ih]
          simp only [specBoostedPathBytes, List.map_cons, List.flatten_cons,
            List.getLast?_cons_cons, List.append_assoc]

/-! ### The boosted route walk (`encodeBoostedRouteExactOutput`)

Step tokens are carried at byte level (`…Addr` fields are the 20-byte
address values of `step.tokenIn.address` / `step.tokenOut.address`). -/

/-- One `BoostedRouteStep` as `encodeBoostedRouteExactOutput` reads it. -/
structure PStep where
  type : StepType
  tokenInAddr : List Nat
  tokenOutAddr : List Nat
  poolDeployer : Option (List Nat)
deriving DecidableEq, Repr

instance : Inhabited PStep := ⟨⟨.SWAP, [], [], none⟩⟩

/-- `ADDRESS_ZERO` of the integral-sdk, as bytes. -/
def ADDRESS_ZERO_BYTES : List Nat := List.replicate 20 0

/-- The indices of the SWAP steps (`swapIndices` in the source). -/
def swapIndices (steps : List PStep) : List Nat :=
  (List.range steps.length).filter (fun i =>
    match steps[i]? with
    | some s => s.type == StepType.SWAP
    | none => false)

/-- The hop built for the SWAP step at index `i`: wrap-action flags and
externally-visible tokens come from the WRAP/UNWRAP step immediately before
or after the swap; pool tokens are what the pool actually trades.  (The
`getD default` mirrors the source's direct indexing: every index handed in
by `swapIndices` is in bounds.) -/
def hopAtSwapIndex (steps : List PStep) (i : Nat) : BoostedPoolHop :=
  let swapStep := (steps[i]?).getD default
  let stepBefore := if i > 0 then steps[i - 1]? else none
  let stepAfter := if i < steps.length - 1 then steps[i + 1]? else none
  let outPart :=
    match stepAfter with
    | some sa =>
        if sa.type == StepType.UNWRAP then (WrapAction.UNWRAP, sa.tokenOutAddr)
        else if sa.type == StepType.WRAP then (WrapAction.WRAP, sa.tokenOutAddr)
        else (WrapAction.NONE, swapStep.tokenOutAddr)
    | none => (WrapAction.NONE, swapStep.tokenOutAddr)
  let inPart :=
    match stepBefore with
    | some sb =>
        if sb.type == StepType.WRAP then (WrapAction.WRAP, sb.tokenInAddr)
        else if sb.type == StepType.UNWRAP then (WrapAction.UNWRAP, sb.tokenInAddr)
        else (WrapAction.NONE, swapStep.tokenInAddr)
    | none => (WrapAction.NONE, swapStep.tokenInAddr)
  { tokenOut := outPart.2, wrapOut := outPart.1,
    poolTokenOut := swapStep.tokenOutAddr,
    deployer := swapStep.poolDeployer.getD ADDRESS_ZERO_BYTES,
    poolTokenIn := swapStep.tokenInAddr,
    wrapIn := inPart.1, tokenIn := inPart.2 }

/-- The hop list of `encodeBoostedRouteExactOutput`: the SWAP steps walked
in reverse order. -/
def boostedRouteHops (steps : List PStep) : List BoostedPoolHop :=
  ((swapIndices steps).reverse).map (hopAtSwapIndex steps)

/-- `encodeBoostedRouteExactOutput` (encodePath.ts). -/
def encodeBoostedRouteExactOutput (steps : List PStep) : List Nat :=
  encodeBoostedPathExactOutput (boostedRouteHops steps)

/-- C5 counterexample: the empty hop list encodes to 0 bytes, not
`82·0 + 20 = 20` bytes, so the claimed length formula fails at `n = 0`. -/
theorem encodeBoostedPath_empty_counterexample :
    (encodeBoostedPathExactOutput []).length ≠ 82 * ([] : List BoostedPoolHop).length + 20 := by
  decide

/-- C5 (amended to nonempty hop lists): the boosted exact-output path
encoding is the concatenation, per hop, of the fixed-width 82-byte record
with `tokenIn` appended only on the last record, hence `82·n + 20` bytes for
`n ≥ 1` hops (the empty hop list encodes to 0 bytes); and
`encodeBoostedRouteExactOutput` builds its hops by walking the route's SWAP
steps in reverse order, flags and external tokens taken from the adjacent
WRAP/UNWRAP steps. -/
theorem encodeBoostedPath_layout (hops : List BoostedPoolHop) (steps : List PStep)
    (hne : hops ≠ []) (hw : ∀ h ∈ hops, wfHop h) :
    encodeBoostedPathExactOutput hops = specBoostedPathBytes hops ∧
    (encodeBoostedPathExactOutput hops).length = 82 * hops.length + 20 ∧
    encodeBoostedRouteExactOutput steps =
      encodeBoostedPathExactOutput
        (((swapIndices steps).reverse).map (hopAtSwapIndex steps)) :=
  ⟨encode_eq_specBoostedPathBytes hops,
   encodeBoostedPathExactOutput_length hops hne hw, rfl⟩

/-- Witness for `encodeBoostedPath_layout` on a concrete one-hop list and a
concrete WRAP–SWAP step list. -/
theorem encodeBoostedPath_layout_witness :
    encodeBoostedPathExactOutput [hopW1] = specBoostedPathBytes [hopW1] ∧
    (encodeBoostedPathExactOutput [hopW1]).length = 82 * [hopW1].length + 20 ∧
    encodeBoostedRouteExactOutput
        [⟨.WRAP, List.replicate 20 11, List.replicate 20 12, none⟩,
         ⟨.SWAP, List.replicate 20 12, List.replicate 20 13, some (List.replicate 20 14)⟩] =
      encodeBoostedPathExactOutput
        (((swapIndices
            [⟨.WRAP, List.replicate 20 11, List.replicate 20 12, none⟩,
             ⟨.SWAP, List.replicate 20 12, List.replicate 20 13,
               some (List.replicate 20 14)⟩]).reverse).map
          (hopAtSwapIndex
            [⟨.WRAP, List.replicate 20 11, List.replicate 20 12, none⟩,
             ⟨.SWAP, List.replicate 20 12, List.replicate 20 13,
               some (List.replicate 20 14)⟩])) :=
  encodeBoostedPath_layout [hopW1] _ (by decide) (by decide)

/-! ## Swap-type classifier (`src/utils/swapTypeUtils.ts`) -/

/-- `enum BoostedSwapType`. -/
inductive BoostedSwapType where
  | WRAP_ONLY
  | UNWRAP_ONLY
  | UNDERLYING_TO_UNDERLYING
  | UNDERLYING_TO_BOOSTED
  | BOOSTED_TO_UNDERLYING
  | BOOSTED_TO_BOOSTED
  | NORMAL
deriving DecidableEq, Repr

/-- Tokens as the classifier sees them: a plain `Token` or a `BoostedToken`
(an ERC4626 vault share) carrying a reference to its underlying token. -/
inductive TokenE where
  | token (chainId : Nat) (address : String)
  | boosted (chainId : Nat) (address : String) (underlying : TokenE)
deriving DecidableEq, Repr

def TokenE.chainId : TokenE → Nat
  | .token c _ => c
  | .boosted c _ _ => c

def TokenE.address : TokenE → String
  | .token _ a => a
  | .boosted _ a _ => a

/-- `Token.equals` of the integral-sdk: same chain and same address. -/
def tokenEquals (a b : TokenE) : Bool :=
  a.chainId == b.chainId && a.address == b.address

/-- `isBoostedToken` (`token instanceof BoostedToken`). -/
def isBoostedToken : TokenE → Bool
  | .boosted _ _ _ => true
  | .token _ _ => false

/-- `(token as BoostedToken).underlying` — only ever evaluated under the
`instanceof` guard in the source; on a plain token it returns the token
itself (the branch is unreachable). -/
def underlyingOf : TokenE → TokenE
  | .boosted _ _ u => u
  | .token c a => .token c a

/-- `determineSwapType`, mirroring the source's if-chain including its
unreachable final `return NORMAL`. -/
def determineSwapType (tokenIn tokenOut : TokenE) : BoostedSwapType :=
  let inputIsBoosted := isBoostedToken tokenIn
  let outputIsBoosted := isBoostedToken tokenOut
  if !inputIsBoosted && outputIsBoosted then
    if tokenEquals (underlyingOf tokenOut) tokenIn then .WRAP_ONLY
    else .UNDERLYING_TO_BOOSTED
  else if inputIsBoosted && !outputIsBoosted then
    if tokenEquals (underlyingOf tokenIn) tokenOut then .UNWRAP_ONLY
    else .BOOSTED_TO_UNDERLYING
  else if !inputIsBoosted && !outputIsBoosted then .UNDERLYING_TO_UNDERLYING
  else if inputIsBoosted && outputIsBoosted then .BOOSTED_TO_BOOSTED
  else .NORMAL

/-- The spec's decision table for the classifier, written by the row of the
table that applies to the vault/non-vault shape of the two tokens. -/
def specSwapType : TokenE → TokenE → BoostedSwapType
  | .token ci ai, .boosted _ _ u =>
      if tokenEquals u (.token ci ai) then .WRAP_ONLY else .UNDERLYING_TO_BOOSTED
  | .boosted ci ai u, .token co ao =>
      if tokenEquals u (.token co ao) then .UNWRAP_ONLY else .BOOSTED_TO_UNDERLYING
  | .token _ _, .token _ _ => .UNDERLYING_TO_UNDERLYING
  | .boosted _ _ _, .boosted _ _ _ => .BOOSTED_TO_BOOSTED

/-- C6: `determineSwapType` is total over all four vault/non-vault
combinations, matches the spec's decision table, and never returns NORMAL
(in particular every boosted-vs-underlying combination is non-NORMAL). -/
theorem determineSwapType_matches_table (tokenIn tokenOut : TokenE) :
    determineSwapType tokenIn tokenOut = specSwapType tokenIn tokenOut ∧
    determineSwapType tokenIn tokenOut ≠ BoostedSwapType.NORMAL := by
  cases tokenIn <;> cases tokenOut <;>
    constructor <;>
      simp [determineSwapType, specSwapType, isBoostedToken, underlyingOf] <;>
        split <;> simp_all

/-! ## OmegaQuoter (`src/entities/OmegaQuoter.ts`)

The external boundary (viem `simulateContract` / `multicall`) enters the
model as the per-call result: `Except`-failure for a rejected call.  A raw
return blob is modelled as the decoded shape it carries; the external
`decodeAbiParameters` calls fail on a blob of the wrong shape (and on an
absent blob, where the source indexes `outputs[0]` or `outputs[i]` out of
bounds). -/

/-- A quoter route, by protocol family (`AnyRoute`); a boosted route carries
its step list, which `parseBoostedExactInOutput` walks. -/
inductive QRoute where
  | v2
  | v3
  | integral
  | boosted (steps : List StepM)
deriving DecidableEq, Repr

/-- One raw return blob of the quoter. -/
inductive RawOutput where
  /-- A swap command's output: `(amount, sqrtPriceSequence, gasEstimate)`. -/
  | swapBlob (amount : Nat) (sqrtPrices : List Nat) (gas : Nat)
  /-- A wrap/unwrap command's output: `(amount)`. -/
  | amountBlob (amount : Nat)
  /-- Anything the ABI decoders reject. -/
  | malformed
deriving DecidableEq, Repr

/-- `decodeSwapOutput` applied to a possibly-absent blob (indexing past the
end of `outputs` yields `undefined`, which the decoder throws on). -/
def decodeSwapOutput : Option RawOutput → Except String (Nat × List Nat × Nat)
  | some (.swapBlob a ps g) => .ok (a, ps, g)
  | _ => .error "decodeSwapOutput"

/-- `decodeAmountOutput` applied to a possibly-absent blob. -/
def decodeAmountOutput : Option RawOutput → Except String Nat
  | some (.amountBlob a) => .ok a
  | _ => .error "decodeAmountOutput"

/-- The `QuoteResult` tuple
`[amountsOut, amountsIn, sqrtPrices, ticksCrossed, gasEstimate, fees]`. -/
structure QuoteResultM where
  amountsOut : List Nat
  amountsIn : List Nat
  sqrtPrices : List Nat
  ticksCrossed : List Nat
  gasEstimate : Nat
  fees : List Nat
deriving DecidableEq, Repr

/-- `OmegaQuoter.parseSwapOutput`. -/
def parseSwapOutput (output : Option RawOutput) (exactInput : Bool) :
    Except String QuoteResultM :=
  match decodeSwapOutput output with
  | .error e => .error e
  | .ok (amount, sqrtPrices, gasEstimate) =>
      .ok ⟨if exactInput then [amount] else [],
           if exactInput then [] else [amount],
           sqrtPrices, [], gasEstimate, []⟩

/-- The loop of `OmegaQuoter.parseBoostedExactInOutput`: one output per
step; SWAP outputs contribute their price sequence and gas, WRAP/UNWRAP
outputs a zero price placeholder; outputs beyond the step list make the
source dereference an undefined step and throw. -/
def parseBoostedGo : List RawOutput → List StepM →
    Except String (List Nat × List Nat × Nat)
  | [], _ => .ok ([], [], 0)
  | _ :: _, [] => .error "step undefined"
  | o :: os, s :: ss =>
      if s.type == StepType.SWAP then
        match decodeSwapOutput (some o) with
        | .error e => .error e
        | .ok (a, prices, gas) =>
            match parseBoostedGo os ss with
            | .error e => .error e
            | .ok (as, ps, g) => .ok (a :: as, prices ++ ps, gas + g)
      else
        match decodeAmountOutput (some o) with
        | .error e => .error e
        | .ok a =>
            match parseBoostedGo os ss with
            | .error e => .error e
            | .ok (as, ps, g) => .ok (a :: as, 0 :: ps, g)

/-- `OmegaQuoter.parseBoostedExactInOutput`. -/
def parseBoostedExactInOutput (outputs : List RawOutput) (steps : List StepM) :
    Except String QuoteResultM :=
  match parseBoostedGo outputs steps with
  | .error e => .error e
  | .ok (amountsOut, sqrtPrices, gasEstimate) =>
      .ok ⟨amountsOut, [], sqrtPrices, [], gasEstimate, []⟩

/-- `OmegaQuoter.parseResult`. -/
def parseResult (route : QRoute) (outputs : List RawOutput) (exactInput : Bool) :
    Except String QuoteResultM :=
  match route with
  | .v2 | .v3 | .integral => parseSwapOutput outputs.head? exactInput
  | .boosted steps =>
      if exactInput then parseBoostedExactInOutput outputs steps
      else parseSwapOutput outputs.head? exactInput

/-- `OmegaQuoter.quote`: builds the commands (total on the closed route
union), issues the external simulate call — whose outcome is the
`simResult` argument — and parses; the surrounding `try/catch` converts any
failure into `null`. -/
def quoteM (route : QRoute) (simResult : Except String (List RawOutput))
    (exactInput : Bool) : Option QuoteResultM :=
  match simResult with
  | .error _ => none
  | .ok outputs =>
      match parseResult route outputs exactInput with
      | .error _ => none
      | .ok q => some q

/-- `OmegaQuoter.batchQuote`: one multicall with `allowFailure`, whose
per-entry outcomes are the `multicall` argument (aligned 1:1 with the
routes by the multicall contract); a failed entry yields `null`, a
successful one is parsed, with parse failures also reduced to `null`. -/
def batchQuoteM (routes : List QRoute) (multicall : List (Except String (List RawOutput)))
    (exactInput : Bool) : List (Option QuoteResultM) :=
  if routes.isEmpty then []
  else
    (routes.zip multicall).map (fun rr =>
      match rr.2 with
      | .error _ => none
      | .ok outputs =>
          match parseResult rr.1 outputs exactInput with
          | .error _ => none
          | .ok q => some q)

/-- C8 counterexample: a failed quoting call does NOT propagate out of
`OmegaQuoter.quote` — the catch converts it to `null` (here at the concrete
single-route input whose simulate call rejects). -/
theorem quote_failure_yields_null_counterexample :
    quoteM QRoute.integral (Except.error "rpc error") true = none := rfl

/-- C8 (amended): a failed quoting call yields `null` from the single-quote
path just as in the batch path; `batchQuote` returns one entry per route,
each entry being exactly the single-quote outcome of its own route and
sub-call result — so an individual failure nulls only its own entry and
never prevents the other routes from being quoted. -/
theorem batchQuote_per_route (routes : List QRoute)
    (multicall : List (Except String (List RawOutput))) (exactInput : Bool)
    (hlen : multicall.length = routes.length) :
    batchQuoteM routes multicall exactInput =
      (routes.zip multicall).map (fun rr => quoteM rr.1 rr.2 exactInput) ∧
    (batchQuoteM routes multicall exactInput).length = routes.length ∧
    (∀ route msg exactIn, quoteM route (Except.error msg) exactIn = none) := by
  refine ⟨?_, ?_, fun _ _ _ => rfl⟩
  · cases routes with
    | nil => simp [batchQuoteM]
    | cons r rs => simp [batchQuoteM, quoteM]
  · cases routes with
    | nil => simp [batchQuoteM]
    | cons r rs =>
        simp [batchQuoteM, List.length_zip, hlen]

/-- Witness for `batchQuote_per_route`: two routes, the first sub-call
failing and the second succeeding. -/
theorem batchQuote_per_route_witness :
    batchQuoteM [QRoute.integral, QRoute.v2]
        [Except.error "boom", Except.ok [RawOutput.swapBlob 7 [3] 9]] true =
      ([QRoute.integral, QRoute.v2].zip
        [Except.error "boom", Except.ok [RawOutput.swapBlob 7 [3] 9]]).map
          (fun rr => quoteM rr.1 rr.2 true) ∧
    (batchQuoteM [QRoute.integral, QRoute.v2]
        [Except.error "boom", Except.ok [RawOutput.swapBlob 7 [3] 9]] true).length = 2 ∧
    (∀ route msg exactIn, quoteM route (Except.error msg) exactIn = none) :=
  batchQuote_per_route [QRoute.integral, QRoute.v2]
    [Except.error "boom", Except.ok [RawOutput.swapBlob 7 [3] 9]] true rfl
